import Mathlib

/-!
# Verification of the prow-helper selection-and-monitoring engine

A shallow embedding of the interactive fuzzy multi-select picker
(`internal/selector`), the monitoring loop (`monitor.go`), and the status
probe (`internal/watcher.CheckJobStatus`) of the prow-helper repository,
together with proofs of the specification's testable properties.

Go strings are modelled as `List Char`, Go `map[int]bool` as `Nat → Bool`
(absent keys read as `false`), fallible operations as `Except`, and the
bubbletea message loop as a pure transition function on the model record.
-/

/-- Go strings, modelled as lists of characters. -/
abbrev GoStr := List Char

/-- Model of Go `strings.ToLower` (per-rune lowercasing). -/
def strToLower (s : GoStr) : GoStr := s.map Char.toLower

/-- Helper of `strContains`: does `p` start the string `s`?
Models the per-position comparison done by Go `strings.Contains`. -/
def isPrefixOfB : GoStr → GoStr → Bool
  | [], _ => true
  | _ :: _, [] => false
  | a :: p, b :: s => (a == b) && isPrefixOfB p s

/-- Model of Go `strings.Contains hay needle`: scan every suffix of `hay`
for `needle` at its front. -/
def strContains : GoStr → GoStr → Bool
  | [], needle => isPrefixOfB needle []
  | c :: t, needle => isPrefixOfB needle (c :: t) || strContains t needle

theorem isPrefixOfB_iff (p s : GoStr) : isPrefixOfB p s = true ↔ ∃ t, s = p ++ t := by
  induction p generalizing s with
  | nil => simp [isPrefixOfB]
  | cons a p ih =>
    cases s with
    | nil => simp [isPrefixOfB]
    | cons b s =>
      simp only [isPrefixOfB, Bool.and_eq_true, beq_iff_eq, ih, List.cons_append,
        List.cons.injEq]
      constructor
      · rintro ⟨rfl, t, rfl⟩; exact ⟨t, rfl, rfl⟩
      · rintro ⟨t, rfl, rfl⟩; exact ⟨rfl, t, rfl⟩

theorem strContains_iff (hay needle : GoStr) :
    strContains hay needle = true ↔ ∃ s t, hay = s ++ needle ++ t := by
  induction hay with
  | nil =>
    simp only [strContains, isPrefixOfB_iff]
    constructor
    · rintro ⟨t, ht⟩
      exact ⟨[], t, by simpa using ht⟩
    · rintro ⟨s, t, hst⟩
      rcases List.append_eq_nil.mp (List.append_eq_nil.mp hst.symm).1 with ⟨h1, h2⟩
      exact ⟨[], by simp [h2]⟩
  | cons c hs ih =>
    simp only [strContains, Bool.or_eq_true, isPrefixOfB_iff, ih]
    constructor
    · rintro (⟨t, ht⟩ | ⟨s, t, hst⟩)
      · exact ⟨[], t, by simpa using ht⟩
      · exact ⟨c :: s, t, by simp [hst]⟩
    · rintro ⟨s, t, hst⟩
      cases s with
      | nil => exact Or.inl ⟨t, by simpa using hst⟩
      | cons c2 s2 =>
        simp only [List.cons_append, List.cons.injEq] at hst
        exact Or.inr ⟨s2, t, hst.2⟩

/-- `fuzzyMatch` from `internal/selector`: true if `query` is a
case-insensitive substring of `target`; the empty query matches everything. -/
def fuzzyMatch (query target : GoStr) : Bool :=
  if query = [] then true
  else strContains (strToLower target) (strToLower query)

/-- C1: `fuzzyMatch q L` is true iff the lowercased label contains the
lowercased query as a contiguous substring; the empty query matches every
label; and in particular `fuzzyMatch "aon" "pull-ci-openshift-e2e-aws-ovn"`
is false, because "aon" occurs only as a gapped subsequence there. -/
theorem fuzzyMatch_substring_spec :
    (∀ q L : GoStr, fuzzyMatch q L = true ↔
      ∃ s t, strToLower L = s ++ strToLower q ++ t) ∧
    (∀ L : GoStr, fuzzyMatch [] L = true) ∧
    fuzzyMatch ("aon".data) ("pull-ci-openshift-e2e-aws-ovn".data) = false := by
  refine ⟨fun q L => ?_, fun L => by simp [fuzzyMatch], by decide⟩
  by_cases hq : q = []
  · subst hq
    constructor
    · intro _
      exact ⟨[], strToLower L, by simp [strToLower]⟩
    · intro _
      simp [fuzzyMatch]
  · rw [fuzzyMatch, if_neg hq]
    exact strContains_iff _ _

/-- Witness for C1: the substring characterisation evaluated at the spec's
positive example `fuzzyMatch "ovn" "pull-ci-openshift-e2e-aws-ovn"`. -/
theorem fuzzyMatch_substring_spec_witness :
    fuzzyMatch ("ovn".data) ("pull-ci-openshift-e2e-aws-ovn".data) = true :=
  (fuzzyMatch_substring_spec.1 _ _).mpr
    ⟨("pull-ci-openshift-e2e-aws-".data), [], by decide⟩

/-! ## The fuzzy picker (`internal/selector`)

The bubbletea model of the selector, in its latest revision: items carry a
stable `key` used to re-apply selections across a Ctrl+R refresh, and the
view renders only a viewport window derived from the terminal height. -/

/-- `selector.Item`: one selectable row (`Label` shown/matched, `Key` a
stable identifier; empty key means the selection is not preserved). -/
structure Item where
  label : GoStr
  key : GoStr
deriving DecidableEq

instance : Inhabited Item := ⟨⟨[], []⟩⟩

/-- `selector.model`: the picker state.  `selected` models the Go
`map[int]bool` (missing keys read as `false`); `hasRefreshFn` models
`refreshFn != nil`; `height = 0` means the terminal size is unknown. -/
structure Model where
  items : List Item
  filtered : List Nat
  selected : Nat → Bool
  cursor : Nat
  query : GoStr
  done : Bool
  quit : Bool
  hasRefreshFn : Bool
  refreshing : Bool
  refreshErr : Option String
  height : Nat
  width : Nat

/-- Point update of a `map[int]bool`. -/
def setSel (sel : Nat → Bool) (i : Nat) (b : Bool) : Nat → Bool :=
  fun j => if j = i then b else sel j

/-- The loop body of `refilter`: indices of the items matching the query,
in order. -/
def filterIndices (items : List Item) (query : GoStr) : List Nat :=
  (items.enum.filter (fun p => fuzzyMatch query p.2.label)).map Prod.fst

/-- `model.refilter`: rebuild `filtered` from `items` and `query`, then
clamp the cursor back into bounds. -/
def Model.refilter (m : Model) : Model :=
  { m with
    filtered := filterIndices m.items m.query,
    cursor :=
      if (filterIndices m.items m.query).length = 0 then 0
      else if (filterIndices m.items m.query).length ≤ m.cursor then
        (filterIndices m.items m.query).length - 1
      else m.cursor }

/-- `selector.newModel`: zero-valued state plus an initial `refilter`. -/
def newModel (items : List Item) (hasRefreshFn : Bool) : Model :=
  Model.refilter
    { items := items, filtered := [], selected := fun _ => false, cursor := 0,
      query := [], done := false, quit := false, hasRefreshFn := hasRefreshFn,
      refreshing := false, refreshErr := none, height := 0, width := 0 }

/-- `viewOverhead`: header (3 rows) + footer (2 rows) of the rendered view. -/
def viewOverhead : Nat := 5

/-- `model.visibleLines`: list rows that fit in the terminal; all filtered
items when the height is unknown; at least 1. -/
def Model.visibleLines (m : Model) : Nat :=
  if m.height = 0 then m.filtered.length
  else if m.height - viewOverhead < 1 then 1
  else m.height - viewOverhead

/-- `model.viewportStart`: index into `filtered` of the first rendered row,
keeping the cursor inside the window and the window inside the list. -/
def Model.viewportStart (m : Model) : Nat :=
  if m.cursor < m.visibleLines then 0
  else if m.filtered.length - m.visibleLines < m.cursor - m.visibleLines + 1 then
    m.filtered.length - m.visibleLines
  else
    m.cursor - m.visibleLines + 1

/-- The discrete events consumed by `model.Update`: key presses, terminal
resize notices, and refresh completions. -/
inductive Msg where
  | windowSize (width height : Nat)
  | refreshCompleted (items : List Item) (err : Option String)
  | keyCtrlC
  | keyEsc
  | keyEnter
  | keyUp
  | keyDown
  | keySpace
  | keyBackspace
  | keyCtrlA
  | keyCtrlR
  | keyRunes (runes : GoStr)

/-- The Ctrl+A branch of `Update`: if every filtered item is selected,
deselect them all, otherwise select them all. -/
def Model.toggleAll (m : Model) : Model :=
  let allSelected := m.filtered.all (fun fi => m.selected fi)
  { m with selected :=
      m.filtered.foldl (fun sel fi => setSel sel fi (!allSelected)) m.selected }

/-- The per-item guard of the restore loop: `item.Key != "" && oldSelected[item.Key]`. -/
def keyCond (oldSel : GoStr → Bool) (it : Item) : Bool :=
  (!(it.key = ([] : GoStr))) && oldSel it.key

/-- The restore loop of the `refreshMsg` branch: walk the new items with
their index, re-selecting each one whose non-empty key was previously
selected.  `i` is the running index of the Go `for i, item := range`. -/
def restoreLoop (oldSel : GoStr → Bool) (items : List Item) (i : Nat)
    (sel : Nat → Bool) : Nat → Bool :=
  match items with
  | [] => sel
  | it :: rest =>
      restoreLoop oldSel rest (i + 1)
        (if keyCond oldSel it then setSel sel i true else sel)

/-- The collection loop of the `refreshMsg` branch: `oldSelected[k]` is true
iff some in-range selected item has the non-empty key `k`.  Iterating the
Go `map[int]bool` with its `idx < len(m.items)` guard visits exactly the
in-range indices with a true entry. -/
def oldSelectedFn (m : Model) : GoStr → Bool := fun k =>
  (List.range m.items.length).any (fun idx =>
    m.selected idx && (!((m.items.getD idx default).key = ([] : GoStr)))
      && ((m.items.getD idx default).key = k))

/-- The successful-refresh branch of `Update`: collect the keys of selected
items, swap in the new item list, re-apply selections by key, clear the
refresh error and refilter. -/
def Model.applyRefresh (m : Model) (newItems : List Item) : Model :=
  Model.refilter
    { m with items := newItems,
             selected := restoreLoop (oldSelectedFn m) newItems 0 (fun _ => false),
             refreshErr := none }

/-- `model.Update`: the single-threaded event loop body of the selector. -/
def Model.update (m : Model) (msg : Msg) : Model :=
  match msg with
  | .windowSize w h => { m with width := w, height := h }
  | .refreshCompleted newItems err =>
      let m2 := { m with refreshing := false }
      match err with
      | some e => { m2 with refreshErr := some e }
      | none => m2.applyRefresh newItems
  | .keyCtrlC => { m with quit := true }
  | .keyEsc =>
      if m.query ≠ [] then Model.refilter { m with query := [] }
      else { m with quit := true }
  | .keyEnter => { m with done := true }
  | .keyUp => if 0 < m.cursor then { m with cursor := m.cursor - 1 } else m
  | .keyDown =>
      if m.cursor < m.filtered.length - 1 then { m with cursor := m.cursor + 1 }
      else m
  | .keySpace =>
      if 0 < m.filtered.length then
        let idx := m.filtered.getD m.cursor 0
        { m with selected := setSel m.selected idx (!m.selected idx) }
      else m
  | .keyBackspace =>
      if m.query ≠ [] then Model.refilter { m with query := m.query.dropLast }
      else m
  | .keyCtrlA => m.toggleAll
  | .keyCtrlR =>
      if m.hasRefreshFn && !m.refreshing then
        { m with refreshing := true, refreshErr := none }
      else m
  | .keyRunes rs => Model.refilter { m with query := m.query ++ rs }

/-! ### Basic facts about the picker transitions -/

theorem setSel_eval (sel : Nat → Bool) (i : Nat) (b : Bool) (j : Nat) :
    setSel sel i b j = if j = i then b else sel j := rfl

theorem foldl_setSel_eval (l : List Nat) (sel : Nat → Bool) (b : Bool) (j : Nat) :
    (l.foldl (fun s fi => setSel s fi b) sel) j = if j ∈ l then b else sel j := by
  induction l generalizing sel with
  | nil => simp
  | cons a l ih =>
    simp only [List.foldl_cons, ih, List.mem_cons, setSel]
    by_cases hjt : j ∈ l
    · simp [hjt]
    · by_cases hja : j = a <;> simp [hja, hjt]

theorem toggleAll_filtered (m : Model) : m.toggleAll.filtered = m.filtered := rfl

theorem toggleAll_selected_eval (m : Model) (j : Nat) :
    m.toggleAll.selected j =
      if j ∈ m.filtered then !(m.filtered.all (fun fi => m.selected fi))
      else m.selected j :=
  foldl_setSel_eval _ _ _ _

theorem restoreLoop_eval (oldSel : GoStr → Bool) (items : List Item) (i : Nat)
    (sel : Nat → Bool) (j : Nat) :
    restoreLoop oldSel items i sel j = true ↔
      sel j = true ∨ ∃ k, ∃ h : k < items.length,
        i + k = j ∧ keyCond oldSel (items.get ⟨k, h⟩) = true := by
  induction items generalizing i sel with
  | nil => simp [restoreLoop]
  | cons it rest ih =>
    rw [restoreLoop, ih]
    constructor
    · rintro (h | ⟨k, hk, hik, hcond⟩)
      · by_cases hc : keyCond oldSel it = true
        · rw [if_pos hc] at h
          by_cases hji : j = i
          · exact Or.inr ⟨0, by simp, by omega, by simpa using hc⟩
          · left
            simpa [setSel, hji] using h
        · rw [if_neg hc] at h
          exact Or.inl h
      · exact Or.inr ⟨k + 1, by simpa using hk, by omega, by simpa using hcond⟩
    · rintro (h | ⟨k, hk, hik, hcond⟩)
      · left
        by_cases hc : keyCond oldSel it = true
        · rw [if_pos hc]
          by_cases hji : j = i <;> simp [setSel, hji, h]
        · rw [if_neg hc]
          exact h
      · cases k with
        | zero =>
          left
          have hji : j = i := by omega
          simp only [List.get] at hcond
          rw [if_pos hcond]
          simp [setSel, hji]
        | succ k =>
          exact Or.inr ⟨k, by simpa using hk, by omega, by simpa using hcond⟩

/-- C4 counterexample state: two items, the first one toggled by SPACE, so
the filtered list is in a mixed selection state. -/
def toggleCexModel : Model :=
  (newModel [⟨"a".data, "a".data⟩, ⟨"b".data, "b".data⟩] false).update .keySpace

/-- C4 is false as stated: from a mixed selection state (item 0 selected,
item 1 not), pressing Ctrl+A twice does not restore item 0's selection —
the first press selects everything, the second deselects everything. -/
theorem toggleAll_involution_cex :
    0 ∈ toggleCexModel.filtered ∧ toggleCexModel.selected 0 = true ∧
    ((toggleCexModel.update .keyCtrlA).update .keyCtrlA).selected 0 = false := by
  decide

/-- C4 (amended): pressing Ctrl+A twice restores the selection state of the
currently-filtered items when they were uniformly selected or uniformly
unselected beforehand; from a mixed state both presses leave every filtered
item unselected; and items hidden by the filter are untouched by either
press. -/
theorem toggleAll_twice_spec (m : Model) :
    (∀ j, j ∉ m.filtered →
      (m.update .keyCtrlA).selected j = m.selected j ∧
      ((m.update .keyCtrlA).update .keyCtrlA).selected j = m.selected j) ∧
    ((∀ i ∈ m.filtered, m.selected i = true) →
      ∀ i ∈ m.filtered,
        ((m.update .keyCtrlA).update .keyCtrlA).selected i = m.selected i) ∧
    ((∀ i ∈ m.filtered, m.selected i = false) →
      ∀ i ∈ m.filtered,
        ((m.update .keyCtrlA).update .keyCtrlA).selected i = m.selected i) ∧
    ((¬ ∀ i ∈ m.filtered, m.selected i = true) →
      ∀ i ∈ m.filtered,
        ((m.update .keyCtrlA).update .keyCtrlA).selected i = false) := by
  have hu : m.update .keyCtrlA = m.toggleAll := rfl
  have hu2 : (m.update .keyCtrlA).update .keyCtrlA = m.toggleAll.toggleAll := rfl
  set A := m.filtered.all (fun fi => m.selected fi) with hA
  -- value of the selection after the second press, for filtered items
  have hsecond : ∀ j ∈ m.filtered, m.toggleAll.toggleAll.selected j = A := by
    intro j hj
    have hA2 : m.filtered.all (fun fi => m.toggleAll.selected fi) = !A := by
      cases hb : (!A) with
      | true =>
        rw [List.all_eq_true]
        intro i hi
        rw [toggleAll_selected_eval, if_pos hi, ← hA, hb]
      | false =>
        rw [← Bool.not_eq_true, List.all_eq_true]
        intro hall
        have := hall j hj
        rw [toggleAll_selected_eval, if_pos hj, ← hA, hb] at this
        exact Bool.false_ne_true this
    rw [toggleAll_selected_eval, toggleAll_filtered, if_pos hj, hA2, Bool.not_not]
  refine ⟨?_, ?_, ?_, ?_⟩
  · intro j hj
    have h1 : m.toggleAll.selected j = m.selected j := by
      rw [toggleAll_selected_eval, if_neg hj]
    have h2 : m.toggleAll.toggleAll.selected j = m.toggleAll.selected j := by
      rw [toggleAll_selected_eval, toggleAll_filtered, if_neg hj]
    rw [hu2, hu]
    exact ⟨h1, h2.trans h1⟩
  · intro hall i hi
    have : A = true := List.all_eq_true.mpr (by intro x hx; simpa using hall x hx)
    rw [hu2, hsecond i hi, this, hall i hi]
  · intro hall i hi
    have : A = false := by
      rw [← Bool.not_eq_true, List.all_eq_true]
      intro h
      have := h i hi
      simp only [hall i hi] at this
      exact Bool.false_ne_true this
    rw [hu2, hsecond i hi, this, hall i hi]
  · intro hnall i hi
    have : A = false := by
      cases hAv : A with
      | false => rfl
      | true =>
        exact absurd (by intro x hx; simpa using List.all_eq_true.mp hAv x hx) hnall
    rw [hu2, hsecond i hi, this]

/-- Witness for C4: from the uniformly-unselected state of a fresh model,
two Ctrl+A presses restore the (unselected) state of item 0. -/
theorem toggleAll_twice_spec_witness :
    (((newModel [⟨"a".data, []⟩] false).update .keyCtrlA).update .keyCtrlA).selected 0
      = (newModel [⟨"a".data, []⟩] false).selected 0 :=
  (toggleAll_twice_spec _).2.2.1 (by decide) 0 (by decide)

/-- C5: after a successful refresh, an item selected beforehand whose
non-empty key is present in the new list is re-selected at every position
carrying that key; an item with an empty key is never re-selected; and the
filtered list is recomputed from the new items with the unchanged query. -/
theorem refresh_reselect_spec (m : Model) (newItems : List Item) :
    (∀ i, (hi : i < m.items.length) → m.selected i = true →
      (m.items.get ⟨i, hi⟩).key ≠ [] →
      ∀ j, (hj : j < newItems.length) →
        (newItems.get ⟨j, hj⟩).key = (m.items.get ⟨i, hi⟩).key →
        (m.update (.refreshCompleted newItems none)).selected j = true) ∧
    (∀ j, (hj : j < newItems.length) → (newItems.get ⟨j, hj⟩).key = [] →
      (m.update (.refreshCompleted newItems none)).selected j = false) ∧
    (m.update (.refreshCompleted newItems none)).query = m.query ∧
    (m.update (.refreshCompleted newItems none)).items = newItems ∧
    (m.update (.refreshCompleted newItems none)).filtered =
      filterIndices newItems m.query := by
  have hsel : (m.update (.refreshCompleted newItems none)).selected
      = restoreLoop (oldSelectedFn m) newItems 0 (fun _ => false) := rfl
  refine ⟨?_, ?_, rfl, rfl, rfl⟩
  · intro i hi hseli hkey j hj hkeyEq
    rw [hsel]
    refine (restoreLoop_eval _ _ _ _ _).mpr (Or.inr ⟨j, hj, by omega, ?_⟩)
    have hgetd : m.items.getD i default = m.items.get ⟨i, hi⟩ := by
      rw [List.getD_eq_getElem _ _ hi, List.get_eq_getElem]
    simp only [keyCond, Bool.and_eq_true, Bool.not_eq_true', decide_eq_false_iff_not,
      decide_eq_true_eq, oldSelectedFn, List.any_eq_true, List.mem_range]
    exact ⟨by rw [hkeyEq]; exact hkey, i, hi,
      ⟨⟨hseli, by rw [hgetd]; exact hkey⟩, by rw [hgetd]; exact hkeyEq.symm⟩⟩
  · intro j hj hkeyNil
    rw [hsel]
    cases hres : restoreLoop (oldSelectedFn m) newItems 0 (fun _ => false) j with
    | false => rfl
    | true =>
      exfalso
      rcases (restoreLoop_eval _ _ _ _ _).mp hres with h | ⟨k, hk, hik, hcond⟩
      · exact Bool.false_ne_true h
      · have hkj : k = j := by omega
        subst hkj
        simp [keyCond] at hcond
        exact hcond.1 hkeyNil

/-- Witness for C5, at a concrete one-item model whose item (key "k") is
selected by SPACE and refreshed into a two-item list: the new item with
key "k" is re-selected, the new item with the empty key is not. -/
theorem refresh_reselect_spec_witness :
    (((newModel [⟨"a".data, "k".data⟩] true).update .keySpace).update
        (.refreshCompleted [⟨"b".data, "k".data⟩, ⟨"c".data, []⟩] none)).selected 0 = true ∧
    (((newModel [⟨"a".data, "k".data⟩] true).update .keySpace).update
        (.refreshCompleted [⟨"b".data, "k".data⟩, ⟨"c".data, []⟩] none)).selected 1 = false :=
  ⟨(refresh_reselect_spec _ _).1 0 (by decide) (by decide) (by decide)
      0 (by decide) (by decide),
   (refresh_reselect_spec _ _).2.1 1 (by decide) (by decide)⟩

/-- C6: a refresh that completes with an error leaves items, selections,
query, filtered list and cursor exactly as they were, and records the error
in the transient refresh-error indicator. -/
theorem refresh_failure_atomic (m : Model) (newItems : List Item) (e : String) :
    (m.update (.refreshCompleted newItems (some e))).items = m.items ∧
    (m.update (.refreshCompleted newItems (some e))).selected = m.selected ∧
    (m.update (.refreshCompleted newItems (some e))).query = m.query ∧
    (m.update (.refreshCompleted newItems (some e))).filtered = m.filtered ∧
    (m.update (.refreshCompleted newItems (some e))).cursor = m.cursor ∧
    (m.update (.refreshCompleted newItems (some e))).refreshErr = some e :=
  ⟨rfl, rfl, rfl, rfl, rfl, rfl⟩

/-- Witness for C6: the cursor of a concrete model survives a failed
refresh. -/
theorem refresh_failure_atomic_witness :
    ((newModel [⟨"a".data, "k".data⟩] true).update
        (.refreshCompleted [] (some "boom"))).cursor
      = (newModel [⟨"a".data, "k".data⟩] true).cursor :=
  (refresh_failure_atomic _ _ _).2.2.2.2.1

/-- The concrete viewport scenario of the spec: 20 filtered items, terminal
height `viewOverhead + 5` (so 5 visible rows), cursor at `c`. -/
def viewModel (c : Nat) : Model :=
  { newModel (List.replicate 20 ⟨"item".data, []⟩) false with
    height := viewOverhead + 5, cursor := c }

/-- C7: with a known terminal height the picker window holds
`height - viewOverhead` rows (at least 1), starting at 0 while the cursor
is inside the first page and at `cursor - visibleRows + 1` afterwards,
clamped to `len(filtered) - visibleRows`; concretely with 5 visible rows
and 20 filtered items, cursor 0..4 gives start 0, cursor 5 gives start 1
and cursor 19 gives start 15. -/
theorem viewport_window_spec :
    (∀ m : Model, m.height ≠ 0 →
      m.visibleLines = max (m.height - viewOverhead) 1 ∧
      m.viewportStart = (if m.cursor < m.visibleLines then 0
        else min (m.cursor - m.visibleLines + 1)
          (m.filtered.length - m.visibleLines))) ∧
    (∀ c, c < 5 → (viewModel c).viewportStart = 0) ∧
    (viewModel 5).viewportStart = 1 ∧
    (viewModel 19).viewportStart = 15 := by
  refine ⟨fun m h => ⟨?_, ?_⟩, by decide, by decide, by decide⟩
  · rw [Model.visibleLines, if_neg h]
    split <;> omega
  · rw [Model.viewportStart]
    by_cases hc : m.cursor < m.visibleLines
    · rw [if_pos hc, if_pos hc]
    · rw [if_neg hc, if_neg hc, Nat.min_def]
      split <;> split <;> omega

/-- Witness for C7: the window-size formula evaluated at the concrete
scenario with the cursor at 7. -/
theorem viewport_window_spec_witness :
    (viewModel 7).visibleLines = max ((viewModel 7).height - viewOverhead) 1 :=
  (viewport_window_spec.1 (viewModel 7) (by decide)).1

/-- The cursor invariant of the picker: the cursor indexes `filtered`
whenever it is non-empty, and sits at 0 otherwise. -/
def cursorInv (m : Model) : Prop :=
  (m.filtered = [] ∧ m.cursor = 0) ∨ m.cursor < m.filtered.length

instance (m : Model) : Decidable (cursorInv m) := by
  unfold cursorInv
  infer_instance

theorem refilter_cursorInv (m : Model) : cursorInv m.refilter := by
  have hf : m.refilter.filtered = filterIndices m.items m.query := rfl
  have hc : m.refilter.cursor =
      (if (filterIndices m.items m.query).length = 0 then 0
       else if (filterIndices m.items m.query).length ≤ m.cursor then
         (filterIndices m.items m.query).length - 1
       else m.cursor) := rfl
  unfold cursorInv
  rw [hf, hc]
  by_cases h0 : (filterIndices m.items m.query).length = 0
  · exact Or.inl ⟨List.length_eq_zero.mp h0, by rw [if_pos h0]⟩
  · right
    rw [if_neg h0]
    by_cases h1 : (filterIndices m.items m.query).length ≤ m.cursor
    · rw [if_pos h1]
      omega
    · rw [if_neg h1]
      omega

/-- C9: the cursor invariant holds after `newModel` and is preserved by
every event `Update` handles (keys, resizes, refresh completions). -/
theorem cursor_invariant :
    (∀ (items : List Item) (hasR : Bool), cursorInv (newModel items hasR)) ∧
    (∀ (m : Model) (msg : Msg), cursorInv m → cursorInv (m.update msg)) := by
  constructor
  · intro items hasR
    exact refilter_cursorInv _
  · intro m msg h
    cases msg with
    | windowSize w hh => exact h
    | refreshCompleted newItems err =>
      cases err with
      | some e => exact h
      | none => exact refilter_cursorInv _
    | keyCtrlC => exact h
    | keyEsc =>
      show cursorInv (if m.query ≠ [] then _ else _)
      split
      · exact refilter_cursorInv _
      · exact h
    | keyEnter => exact h
    | keyUp =>
      show cursorInv (if 0 < m.cursor then _ else _)
      split
      · rcases h with ⟨hfe, hc0⟩ | hlt
        · exact Or.inl ⟨hfe, by omega⟩
        · exact Or.inr (by show m.cursor - 1 < m.filtered.length; omega)
      · exact h
    | keyDown =>
      show cursorInv (if m.cursor < m.filtered.length - 1 then _ else _)
      split
      · rename_i hguard
        exact Or.inr (by show m.cursor + 1 < m.filtered.length; omega)
      · exact h
    | keySpace =>
      show cursorInv (if 0 < m.filtered.length then _ else _)
      split
      · exact h
      · exact h
    | keyBackspace =>
      show cursorInv (if m.query ≠ [] then _ else _)
      split
      · exact refilter_cursorInv _
      · exact h
    | keyCtrlA => exact h
    | keyCtrlR =>
      show cursorInv (if m.hasRefreshFn && !m.refreshing then _ else _)
      split
      · exact h
      · exact h
    | keyRunes rs => exact refilter_cursorInv _

/-- Witness for C9: the invariant after a Down key on a concrete fresh
model. -/
theorem cursor_invariant_witness :
    cursorInv ((newModel [⟨"a".data, []⟩, ⟨"b".data, []⟩] false).update .keyDown) :=
  cursor_invariant.2 _ .keyDown (by decide)

/-! ## The monitoring loop (`monitor.go`) and status probe (`internal/watcher`)

`watcher.JobStatus` keeps the unix timestamp as an integer; `time.Time`
fields of `monitorEntry` are likewise modelled as unix seconds (0 meaning
the zero value "unknown").  The result of one `watcher.CheckJobStatus`
call is an `Except`: `ok none` = still running, `ok (some s)` = finished,
`error` = probe failure. -/

/-- `watcher.JobStatus`. -/
structure JobStatus where
  finished : Bool
  passed : Bool
  timestamp : Int
deriving DecidableEq

/-- `monitorEntry` from `monitor.go`: parsed job metadata plus the latest
known status, last probe error, and the notification guard. -/
structure MonitorEntry where
  jobName : String
  state : String
  startTime : Int
  completionTime : Int
  status : Option JobStatus
  err : Option String
  notified : Bool
deriving DecidableEq

/-- Outcome of one status probe (`watcher.CheckJobStatus`). -/
abbrev ProbeResult := Except String (Option JobStatus)

/-- Go `e.status != nil && e.status.Finished`. -/
def entryFinished (e : MonitorEntry) : Bool :=
  match e.status with
  | some s => s.finished
  | none => false

/-- Go `e.status != nil && e.status.Passed`. -/
def entryPassed (e : MonitorEntry) : Bool :=
  match e.status with
  | some s => s.passed
  | none => false

/-- The per-entry body of `checkAllStatuses`: finished entries are skipped
(never re-probed); a probe failure records `err` (leaving `status` alone);
a finished result records `status` (leaving `err` alone); a still-running
result changes nothing. -/
def checkOne (e : MonitorEntry) (r : ProbeResult) : MonitorEntry :=
  if entryFinished e then e
  else
    match r with
    | .error msg => { e with err := some msg }
    | .ok none => e
    | .ok (some s) => { e with status := some s }

/-- The loop of `checkAllStatuses` over the entry list; `probe i` is the
result of the goroutine probing entry `i` (the per-entry goroutines write
disjoint entries under one mutex, so a round is this pointwise update). -/
def checkLoop (probe : Nat → ProbeResult) (i : Nat) :
    List MonitorEntry → List MonitorEntry
  | [] => []
  | e :: rest => checkOne e (probe i) :: checkLoop probe (i + 1) rest

/-- `checkAllStatuses`: one concurrent probe round. -/
def checkAllStatuses (entries : List MonitorEntry)
    (probe : Nat → ProbeResult) : List MonitorEntry :=
  checkLoop probe 0 entries

/-- The per-entry body of `notifyCompletions`: skip if already notified or
not finished, otherwise set the guard and invoke the notification sink
(the returned boolean records that one sink invocation). -/
def notifyOne (e : MonitorEntry) : MonitorEntry × Bool :=
  if e.notified then (e, false)
  else if !(entryFinished e) then (e, false)
  else ({ e with notified := true }, true)

/-- `notifyCompletions`: one notification sweep over the entries, pairing
each updated entry with whether the sink was invoked for it. -/
def notifyCompletions : List MonitorEntry → List (MonitorEntry × Bool)
  | [] => []
  | e :: rest => notifyOne e :: notifyCompletions rest

/-- One tick of `monitorJobs`: `checkAllStatuses` then `notifyCompletions`. -/
def monitorRound (entries : List MonitorEntry)
    (probe : Nat → ProbeResult) : List (MonitorEntry × Bool) :=
  notifyCompletions (checkAllStatuses entries probe)

/-- One poll round restricted to a single entry. -/
def stepEntry (e : MonitorEntry) (r : ProbeResult) : MonitorEntry × Bool :=
  notifyOne (checkOne e r)

/-- A single entry driven through a sequence of probe results, counting
sink invocations. -/
def runEntry : MonitorEntry → List ProbeResult → MonitorEntry × Nat
  | e, [] => (e, 0)
  | e, r :: rs =>
      ((runEntry (stepEntry e r).1 rs).1,
        (if (stepEntry e r).2 then 1 else 0) + (runEntry (stepEntry e r).1 rs).2)

/-- The entry list driven through a sequence of poll rounds. -/
def runRounds : List MonitorEntry → List (Nat → ProbeResult) → List MonitorEntry
  | entries, [] => entries
  | entries, p :: ps => runRounds ((monitorRound entries p).map Prod.fst) ps

/-- How many times the sink was invoked for entry `i` over a sequence of
poll rounds. -/
def emissionsAt : List MonitorEntry → List (Nat → ProbeResult) → Nat → Nat
  | _, [], _ => 0
  | entries, p :: ps, i =>
      (if ((monitorRound entries p).map Prod.snd).getD i false then 1 else 0)
        + emissionsAt ((monitorRound entries p).map Prod.fst) ps i

/-- The per-entry test of `allEntriesDone`: Go returns `false` on the first
entry with `err == nil && (status == nil || !status.Finished)`. -/
def entryDoneCheck (e : MonitorEntry) : Bool :=
  !(e.err.isNone && !(entryFinished e))

/-- `allEntriesDone`: true when every entry has a finished status or an
error (the loop in `monitorJobs` terminates successfully exactly then). -/
def allEntriesDone (entries : List MonitorEntry) : Bool :=
  entries.all entryDoneCheck

/-- The status column printed by `printStatusTable` for one entry. -/
inductive StatusLabel where
  | failedError
  | running
  | succeeded
  | failed
deriving DecidableEq

/-- The branch of `printStatusTable` choosing an entry's status string:
probe error first, then running, then pass/fail. -/
def statusLabel (e : MonitorEntry) : StatusLabel :=
  if !e.err.isNone then .failedError
  else if !(entryFinished e) then .running
  else if entryPassed e then .succeeded
  else .failed

/-- The counter of `printFinalSummary` an entry is tallied under. -/
inductive SummaryClass where
  | errored
  | passed
  | failed
deriving DecidableEq

/-- The branch of `printFinalSummary` choosing an entry's counter:
`err != nil` → errored, else `status != nil && status.Passed` → passed,
else failed. -/
def summaryClass (e : MonitorEntry) : SummaryClass :=
  if !e.err.isNone then .errored
  else if entryPassed e then .passed
  else .failed

theorem entryDoneCheck_iff (e : MonitorEntry) :
    entryDoneCheck e = true ↔ e.err ≠ none ∨ entryFinished e = true := by
  rw [entryDoneCheck]
  cases he : e.err <;> cases hf : entryFinished e <;> simp [he, hf]

/-- C2 counterexample entry: probes keep failing, status never observed. -/
def stuckEntry : MonitorEntry :=
  { jobName := "job-a", state := "pending", startTime := 0, completionTime := 0,
    status := none, err := some "probe failed", notified := false }

/-- C2 is false as stated: an entry with a recorded probe error and no
finished status does count as done — `allEntriesDone` is true for it, so a
persistently-erroring entry does not keep the loop alive. -/
theorem allEntriesDone_erroredEntry_cex :
    allEntriesDone [stuckEntry] = true ∧ stuckEntry.status = none := by
  decide

/-- C2 (amended): `allEntriesDone entries` is true exactly when every
entry has a status with `Finished == true` or a recorded probe error; an
entry whose probes keep failing counts as done once its `err` is set, so
the loop can terminate with it tallied as errored. -/
theorem allEntriesDone_done_iff (entries : List MonitorEntry) :
    allEntriesDone entries = true ↔
      ∀ e ∈ entries, e.err ≠ none ∨ entryFinished e = true := by
  rw [allEntriesDone, List.all_eq_true]
  exact ⟨fun h e he => (entryDoneCheck_iff e).mp (h e he),
    fun h e he => (entryDoneCheck_iff e).mpr (h e he)⟩

/-- Witness for C2: the characterisation applied to a one-entry list whose
entry carries a finished status. -/
theorem allEntriesDone_done_iff_witness :
    allEntriesDone
      [{ jobName := "job-d", state := "success", startTime := 0,
         completionTime := 0, status := some ⟨true, true, 9⟩, err := none,
         notified := true }] = true :=
  (allEntriesDone_done_iff _).mpr (by decide)

/-! ### Per-entry facts about one poll round -/

theorem checkOne_notified (e : MonitorEntry) (r : ProbeResult) :
    (checkOne e r).notified = e.notified := by
  rw [checkOne.eq_def]
  by_cases h : entryFinished e = true
  · rw [if_pos h]
  · rw [if_neg h]
    cases r with
    | error msg => rfl
    | ok o => cases o <;> rfl

theorem checkOne_of_finished (e : MonitorEntry) (r : ProbeResult)
    (h : entryFinished e = true) : checkOne e r = e := by
  rw [checkOne.eq_def, if_pos h]

theorem notifyOne_fst_status (e : MonitorEntry) :
    (notifyOne e).1.status = e.status := by
  rw [notifyOne]
  by_cases h1 : e.notified = true
  · rw [if_pos h1]
  · rw [if_neg h1]
    by_cases h2 : (!entryFinished e) = true
    · rw [if_pos h2]
    · rw [if_neg h2]

theorem notifyOne_fst_err (e : MonitorEntry) : (notifyOne e).1.err = e.err := by
  rw [notifyOne]
  by_cases h1 : e.notified = true
  · rw [if_pos h1]
  · rw [if_neg h1]
    by_cases h2 : (!entryFinished e) = true
    · rw [if_pos h2]
    · rw [if_neg h2]

theorem notifyOne_fst_notified (e : MonitorEntry) :
    (notifyOne e).1.notified = (e.notified || entryFinished e) := by
  rw [notifyOne]
  by_cases h1 : e.notified = true
  · rw [if_pos h1, h1]
    simp
  · have h1f : e.notified = false := by
      revert h1; cases e.notified <;> simp
    rw [if_neg h1, h1f, Bool.false_or]
    by_cases h2 : entryFinished e = true
    · rw [if_neg (by simp [h2])]
      simp [h2]
    · have h2f : entryFinished e = false := by
        revert h2; cases entryFinished e <;> simp
      rw [if_pos (by simp [h2f])]
      rw [h1f, h2f]

theorem notifyOne_snd_iff (e : MonitorEntry) :
    (notifyOne e).2 = true ↔ e.notified = false ∧ entryFinished e = true := by
  rw [notifyOne]
  by_cases h1 : e.notified = true
  · rw [if_pos h1]
    simp [h1]
  · have h1f : e.notified = false := by
      revert h1; cases e.notified <;> simp
    by_cases h2 : entryFinished e = true
    · rw [if_neg h1, if_neg (by simp [h2])]
      simp [h1f, h2]
    · have h2f : entryFinished e = false := by
        revert h2; cases entryFinished e <;> simp
      rw [if_neg h1, if_pos (by simp [h2f])]
      simp [h2f]

theorem entryFinished_of_status_eq {a b : MonitorEntry} (h : a.status = b.status) :
    entryFinished a = entryFinished b := by
  rw [entryFinished, entryFinished, h]

theorem stepEntry_fst_notified (e : MonitorEntry) (r : ProbeResult) :
    (stepEntry e r).1.notified = (e.notified || entryFinished (checkOne e r)) := by
  rw [stepEntry, notifyOne_fst_notified, checkOne_notified]

theorem stepEntry_snd_iff (e : MonitorEntry) (r : ProbeResult) :
    (stepEntry e r).2 = true ↔
      e.notified = false ∧ entryFinished (checkOne e r) = true := by
  rw [stepEntry, notifyOne_snd_iff, checkOne_notified]

theorem stepEntry_fst_finished (e : MonitorEntry) (r : ProbeResult) :
    entryFinished (stepEntry e r).1 = entryFinished (checkOne e r) :=
  entryFinished_of_status_eq (notifyOne_fst_status _)

theorem stepEntry_fst_err (e : MonitorEntry) (r : ProbeResult) :
    (stepEntry e r).1.err = (checkOne e r).err := by
  rw [stepEntry, notifyOne_fst_err]

theorem stepEntry_inv (e : MonitorEntry) (r : ProbeResult)
    (h : e.notified = true → entryFinished e = true) :
    (stepEntry e r).1.notified = true → entryFinished (stepEntry e r).1 = true := by
  intro hn
  rw [stepEntry_fst_finished]
  rw [stepEntry_fst_notified] at hn
  rcases Bool.or_eq_true_iff.mp hn with h1 | h2
  · have hf := h h1
    rw [checkOne_of_finished e r hf]
    exact hf
  · exact h2

theorem stepEntry_finished_notified (e : MonitorEntry) (r : ProbeResult) :
    entryFinished (stepEntry e r).1 = true → (stepEntry e r).1.notified = true := by
  intro h
  rw [stepEntry_fst_finished] at h
  rw [stepEntry_fst_notified, h, Bool.or_true]

theorem runEntry_notified_mono :
    ∀ (rs : List ProbeResult) (e : MonitorEntry),
      e.notified = true → (runEntry e rs).1.notified = true := by
  intro rs
  induction rs with
  | nil => intro e h; exact h
  | cons r rs ih =>
    intro e h
    show (runEntry (stepEntry e r).1 rs).1.notified = true
    apply ih
    rw [stepEntry_fst_notified, h, Bool.true_or]

theorem runEntry_inv :
    ∀ (rs : List ProbeResult) (e : MonitorEntry),
      (e.notified = true → entryFinished e = true) →
      ((runEntry e rs).1.notified = true → entryFinished (runEntry e rs).1 = true) := by
  intro rs
  induction rs with
  | nil => intro e h; exact h
  | cons r rs ih =>
    intro e h
    exact ih (stepEntry e r).1 (stepEntry_inv e r h)

theorem runEntry_finished_notified :
    ∀ (rs : List ProbeResult) (e : MonitorEntry), rs ≠ [] →
      entryFinished (runEntry e rs).1 = true → (runEntry e rs).1.notified = true := by
  intro rs
  induction rs with
  | nil => intro e h; exact absurd rfl h
  | cons r rs ih =>
    intro e _ hfin
    cases rs with
    | nil => exact stepEntry_finished_notified e r hfin
    | cons r2 rs2 => exact ih (stepEntry e r).1 (by simp) hfin

theorem runEntry_count :
    ∀ (rs : List ProbeResult) (e : MonitorEntry),
      (runEntry e rs).2 ≤ 1 ∧
      (e.notified = true → (runEntry e rs).2 = 0) ∧
      ((runEntry e rs).2 = 1 ↔
        (e.notified = false ∧ (runEntry e rs).1.notified = true)) := by
  intro rs
  induction rs with
  | nil =>
    intro e
    refine ⟨Nat.zero_le 1, fun _ => rfl, ?_⟩
    constructor
    · intro h
      simp [runEntry] at h
    · rintro ⟨hf, hn⟩
      exact absurd (show e.notified = true from hn) (by simp [hf])
  | cons r rs ih =>
    intro e
    obtain ⟨ihle, ihz, ihiff⟩ := ih (stepEntry e r).1
    have hshape : (runEntry e (r :: rs)).2 =
        (if (stepEntry e r).2 then 1 else 0) + (runEntry (stepEntry e r).1 rs).2 := rfl
    have hshape1 : (runEntry e (r :: rs)).1 = (runEntry (stepEntry e r).1 rs).1 := rfl
    by_cases hn : e.notified = true
    · have hb : (stepEntry e r).2 = false := by
        cases hbv : (stepEntry e r).2 with
        | false => rfl
        | true => exact absurd ((stepEntry_snd_iff e r).mp hbv).1 (by simp [hn])
      have he1 : (stepEntry e r).1.notified = true := by
        rw [stepEntry_fst_notified, hn, Bool.true_or]
      have hz : (runEntry e (r :: rs)).2 = 0 := by
        rw [hshape, hb, if_neg (by simp), ihz he1]
      refine ⟨by omega, fun _ => hz, ?_⟩
      constructor
      · intro h1
        omega
      · rintro ⟨hf, _⟩
        exact absurd hn (by simp [hf])
    · have hnf : e.notified = false := by
        revert hn; cases e.notified <;> simp
      by_cases hb : (stepEntry e r).2 = true
      · have hfin : entryFinished (checkOne e r) = true :=
          ((stepEntry_snd_iff e r).mp hb).2
        have he1 : (stepEntry e r).1.notified = true := by
          rw [stepEntry_fst_notified, hfin, Bool.or_true]
        have hcount : (runEntry e (r :: rs)).2 = 1 := by
          rw [hshape, hb, if_pos rfl, ihz he1]
        refine ⟨by omega, fun h => absurd h (by simp [hnf]), ?_⟩
        rw [hcount, hshape1]
        constructor
        · intro _
          exact ⟨hnf, runEntry_notified_mono rs _ he1⟩
        · intro _
          rfl
      · have hbf : (stepEntry e r).2 = false := by
          revert hb; cases (stepEntry e r).2 <;> simp
        have hfinf : entryFinished (checkOne e r) = false := by
          cases hfv : entryFinished (checkOne e r) with
          | false => rfl
          | true => exact absurd ((stepEntry_snd_iff e r).mpr ⟨hnf, hfv⟩) hb
        have he1 : (stepEntry e r).1.notified = false := by
          rw [stepEntry_fst_notified, hnf, hfinf, Bool.false_or]
        have hcount : (runEntry e (r :: rs)).2 = (runEntry (stepEntry e r).1 rs).2 := by
          rw [hshape, hbf, if_neg (by simp), Nat.zero_add]
        refine ⟨by omega, fun h => absurd h (by simp [hnf]), ?_⟩
        rw [hcount, hshape1, ihiff]
        simp [hnf, he1]

/-! ### Relating the list-level rounds to the per-entry trace -/

theorem checkLoop_length (probe : Nat → ProbeResult) :
    ∀ (i : Nat) (l : List MonitorEntry), (checkLoop probe i l).length = l.length := by
  intro i l
  induction l generalizing i with
  | nil => rfl
  | cons e rest ih => simp [checkLoop, ih]

theorem notifyCompletions_length (l : List MonitorEntry) :
    (notifyCompletions l).length = l.length := by
  induction l with
  | nil => rfl
  | cons e rest ih => simp [notifyCompletions, ih]

theorem monitorRound_length (entries : List MonitorEntry) (probe : Nat → ProbeResult) :
    (monitorRound entries probe).length = entries.length := by
  rw [monitorRound, notifyCompletions_length, checkAllStatuses, checkLoop_length]

theorem checkLoop_get (probe : Nat → ProbeResult) :
    ∀ (l : List MonitorEntry) (i j : Nat) (h : j < l.length)
      (h2 : j < (checkLoop probe i l).length),
      (checkLoop probe i l).get ⟨j, h2⟩ = checkOne (l.get ⟨j, h⟩) (probe (i + j)) := by
  intro l
  induction l with
  | nil =>
    intro i j h _
    exact absurd h (by simp)
  | cons e rest ih =>
    intro i j h h2
    cases j with
    | zero => rfl
    | succ j =>
      have harith : i + 1 + j = i + (j + 1) := by omega
      have := ih (i + 1) j (by simpa using h) (by simpa [checkLoop] using h2)
      rw [harith] at this
      exact this

theorem notifyCompletions_get :
    ∀ (l : List MonitorEntry) (j : Nat) (h : j < l.length)
      (h2 : j < (notifyCompletions l).length),
      (notifyCompletions l).get ⟨j, h2⟩ = notifyOne (l.get ⟨j, h⟩) := by
  intro l
  induction l with
  | nil =>
    intro j h _
    exact absurd h (by simp)
  | cons e rest ih =>
    intro j h h2
    cases j with
    | zero => rfl
    | succ j => exact ih j (by simpa using h) (by simpa [notifyCompletions] using h2)

theorem monitorRound_get (entries : List MonitorEntry) (probe : Nat → ProbeResult)
    (j : Nat) (h : j < entries.length) (h2 : j < (monitorRound entries probe).length) :
    (monitorRound entries probe).get ⟨j, h2⟩
      = stepEntry (entries.get ⟨j, h⟩) (probe j) := by
  have hc : j < (checkAllStatuses entries probe).length := by
    rw [checkAllStatuses, checkLoop_length]
    exact h
  have hg : (checkAllStatuses entries probe).get ⟨j, hc⟩
      = checkOne (entries.get ⟨j, h⟩) (probe j) := by
    have := checkLoop_get probe entries 0 j h (by simpa [checkAllStatuses] using hc)
    rw [Nat.zero_add] at this
    exact this
  calc (monitorRound entries probe).get ⟨j, h2⟩
      = notifyOne ((checkAllStatuses entries probe).get ⟨j, hc⟩) :=
        notifyCompletions_get _ j hc _
    _ = stepEntry (entries.get ⟨j, h⟩) (probe j) := by rw [hg, stepEntry]

theorem map_fst_monitorRound_get (entries : List MonitorEntry)
    (probe : Nat → ProbeResult) (j : Nat) (h : j < entries.length)
    (h2 : j < ((monitorRound entries probe).map Prod.fst).length) :
    ((monitorRound entries probe).map Prod.fst).get ⟨j, h2⟩
      = (stepEntry (entries.get ⟨j, h⟩) (probe j)).1 := by
  have h3 : j < (monitorRound entries probe).length := by simpa using h2
  have hm := monitorRound_get entries probe j h h3
  rw [List.get_eq_getElem] at hm ⊢
  rw [List.getElem_map, hm]

theorem map_snd_monitorRound_getD (entries : List MonitorEntry)
    (probe : Nat → ProbeResult) (j : Nat) (h : j < entries.length) :
    ((monitorRound entries probe).map Prod.snd).getD j false
      = (stepEntry (entries.get ⟨j, h⟩) (probe j)).2 := by
  have h3 : j < (monitorRound entries probe).length := by
    rw [monitorRound_length]
    exact h
  have h2 : j < ((monitorRound entries probe).map Prod.snd).length := by simpa using h3
  have hm := monitorRound_get entries probe j h h3
  rw [List.get_eq_getElem] at hm
  rw [List.getD_eq_getElem _ _ h2, List.getElem_map, hm]

theorem runRounds_length :
    ∀ (ps : List (Nat → ProbeResult)) (entries : List MonitorEntry),
      (runRounds entries ps).length = entries.length := by
  intro ps
  induction ps with
  | nil => intro entries; rfl
  | cons p ps ih =>
    intro entries
    show (runRounds ((monitorRound entries p).map Prod.fst) ps).length = _
    rw [ih, List.length_map, monitorRound_length]

theorem runRounds_get :
    ∀ (ps : List (Nat → ProbeResult)) (entries : List MonitorEntry) (j : Nat)
      (h : j < entries.length) (h2 : j < (runRounds entries ps).length),
      (runRounds entries ps).get ⟨j, h2⟩
        = (runEntry (entries.get ⟨j, h⟩) (ps.map (fun p => p j))).1 := by
  intro ps
  induction ps with
  | nil => intro entries j h h2; rfl
  | cons p ps ih =>
    intro entries j h h2
    have hnext : j < ((monitorRound entries p).map Prod.fst).length := by
      simpa [monitorRound_length] using h
    have := ih ((monitorRound entries p).map Prod.fst) j hnext
      (by simpa [runRounds] using h2)
    rw [map_fst_monitorRound_get entries p j h hnext] at this
    exact this

theorem emissionsAt_eq :
    ∀ (ps : List (Nat → ProbeResult)) (entries : List MonitorEntry) (j : Nat)
      (h : j < entries.length),
      emissionsAt entries ps j
        = (runEntry (entries.get ⟨j, h⟩) (ps.map (fun p => p j))).2 := by
  intro ps
  induction ps with
  | nil => intro entries j h; rfl
  | cons p ps ih =>
    intro entries j h
    have hnext : j < ((monitorRound entries p).map Prod.fst).length := by
      simpa [monitorRound_length] using h
    show (if ((monitorRound entries p).map Prod.snd).getD j false then 1 else 0)
        + emissionsAt ((monitorRound entries p).map Prod.fst) ps j = _
    rw [map_snd_monitorRound_getD entries p j h]
    rw [ih ((monitorRound entries p).map Prod.fst) j hnext]
    rw [map_fst_monitorRound_get entries p j h hnext]
    rfl

/-- C3: across any sequence of poll rounds, an entry's `notified` flag goes
false→true at most once and only while its status is finished; the
list-level rounds agree with the per-entry trace; the sink is invoked at
most once per entry, exactly once for an entry that starts un-notified and
ends notified (which, after at least one round, is exactly the finished
entries), and never for an entry whose status is nil or not finished. -/
theorem notified_once_per_completion
    (entries : List MonitorEntry) (rounds : List (Nat → ProbeResult)) (i : Nat)
    (h : i < entries.length)
    (hinv : (entries.get ⟨i, h⟩).notified = true →
      entryFinished (entries.get ⟨i, h⟩) = true) :
    (∀ h2 : i < (runRounds entries rounds).length,
      (runRounds entries rounds).get ⟨i, h2⟩
        = (runEntry (entries.get ⟨i, h⟩) (rounds.map (fun p => p i))).1) ∧
    emissionsAt entries rounds i
      = (runEntry (entries.get ⟨i, h⟩) (rounds.map (fun p => p i))).2 ∧
    (runEntry (entries.get ⟨i, h⟩) (rounds.map (fun p => p i))).2 ≤ 1 ∧
    ((runEntry (entries.get ⟨i, h⟩) (rounds.map (fun p => p i))).1.notified = true →
      entryFinished (runEntry (entries.get ⟨i, h⟩) (rounds.map (fun p => p i))).1
        = true) ∧
    ((entries.get ⟨i, h⟩).notified = true →
      (runEntry (entries.get ⟨i, h⟩) (rounds.map (fun p => p i))).2 = 0) ∧
    ((runEntry (entries.get ⟨i, h⟩) (rounds.map (fun p => p i))).2 = 1 ↔
      ((entries.get ⟨i, h⟩).notified = false ∧
        (runEntry (entries.get ⟨i, h⟩) (rounds.map (fun p => p i))).1.notified
          = true)) ∧
    (rounds ≠ [] →
      entryFinished (runEntry (entries.get ⟨i, h⟩) (rounds.map (fun p => p i))).1
          = true →
      (runEntry (entries.get ⟨i, h⟩) (rounds.map (fun p => p i))).1.notified
        = true) ∧
    (∀ (e : MonitorEntry) (r : ProbeResult), (stepEntry e r).2 = true →
      e.notified = false ∧ entryFinished (checkOne e r) = true) := by
  obtain ⟨hle, hz, hiff⟩ := runEntry_count (rounds.map (fun p => p i)) (entries.get ⟨i, h⟩)
  refine ⟨fun h2 => runRounds_get rounds entries i h h2,
    emissionsAt_eq rounds entries i h, hle,
    runEntry_inv _ _ hinv, hz, hiff, ?_, ?_⟩
  · intro hne hfin
    exact runEntry_finished_notified _ _ (by simpa using hne) hfin
  · intro e r hsnd
    exact (stepEntry_snd_iff e r).mp hsnd

/-- A running, never-notified entry used to witness the monitor claims. -/
def runningEntry : MonitorEntry :=
  { jobName := "job-b", state := "pending", startTime := 0, completionTime := 0,
    status := none, err := none, notified := false }

/-- Witness for C3: the sink-invocation count over one round that reports
the entry finished equals the per-entry trace count. -/
theorem notified_once_per_completion_witness :
    emissionsAt [runningEntry]
        [fun _ => (.ok (some ⟨true, true, 5⟩) : ProbeResult)] 0
      = (runEntry (([runningEntry] : List MonitorEntry).get ⟨0, by decide⟩)
          (([fun _ => (.ok (some ⟨true, true, 5⟩) : ProbeResult)]
            : List (Nat → ProbeResult)).map (fun p => p 0))).2 :=
  (notified_once_per_completion [runningEntry]
    [fun _ => (.ok (some ⟨true, true, 5⟩) : ProbeResult)] 0 (by decide)
    (by decide)).2.1

/-! ### Sticky probe errors -/

theorem checkOne_err_sticky (e : MonitorEntry) (r : ProbeResult)
    (h : e.err ≠ none) : (checkOne e r).err ≠ none := by
  rw [checkOne.eq_def]
  by_cases hf : entryFinished e = true
  · rw [if_pos hf]
    exact h
  · rw [if_neg hf]
    cases r with
    | error msg => simp
    | ok o => cases o <;> exact h

theorem checkOne_err_on_success (e : MonitorEntry) (r : ProbeResult)
    (h : ∀ m2, r ≠ .error m2) : (checkOne e r).err = e.err := by
  rw [checkOne.eq_def]
  by_cases hf : entryFinished e = true
  · rw [if_pos hf]
  · rw [if_neg hf]
    cases r with
    | error msg => exact absurd rfl (h msg)
    | ok o => cases o <;> rfl

theorem runEntry_err_sticky :
    ∀ (rs : List ProbeResult) (e : MonitorEntry), e.err ≠ none →
      (runEntry e rs).1.err ≠ none := by
  intro rs
  induction rs with
  | nil => intro e h; exact h
  | cons r rs ih =>
    intro e h
    apply ih
    rw [stepEntry_fst_err]
    exact checkOne_err_sticky e r h

theorem statusLabel_of_err (x : MonitorEntry) (h : x.err ≠ none) :
    statusLabel x = .failedError := by
  cases hx : x.err with
  | none => exact absurd hx h
  | some m => simp [statusLabel, hx]

theorem summaryClass_of_err (x : MonitorEntry) (h : x.err ≠ none) :
    summaryClass x = .errored := by
  cases hx : x.err with
  | none => exact absurd hx h
  | some m => simp [summaryClass, hx]

theorem entryDoneCheck_of_err (x : MonitorEntry) (h : x.err ≠ none) :
    entryDoneCheck x = true := by
  cases hx : x.err with
  | none => exact absurd hx h
  | some m => simp [entryDoneCheck, hx]

/-- C10: once a probe failure records `err` on an entry, no probe result
can clear it (a successful probe — still-running or finished — leaves
`err` untouched); hence through every later poll round the entry keeps a
non-nil `err`, is rendered via the error branch of `printStatusTable`, is
tallied as errored by `printFinalSummary`, and passes the done test of
`allEntriesDone`. -/
theorem probe_error_sticky (e : MonitorEntry) (msg : String)
    (herr : e.err = some msg) :
    (∀ r : ProbeResult, (checkOne e r).err ≠ none ∧
      ((∀ m2, r ≠ .error m2) → (checkOne e r).err = e.err)) ∧
    (∀ rs : List ProbeResult,
      (runEntry e rs).1.err ≠ none ∧
      statusLabel (runEntry e rs).1 = .failedError ∧
      summaryClass (runEntry e rs).1 = .errored ∧
      entryDoneCheck (runEntry e rs).1 = true) := by
  have hne : e.err ≠ none := by rw [herr]; simp
  refine ⟨fun r => ⟨checkOne_err_sticky e r hne, checkOne_err_on_success e r⟩,
    fun rs => ?_⟩
  have hfe := runEntry_err_sticky rs e hne
  exact ⟨hfe, statusLabel_of_err _ hfe, summaryClass_of_err _ hfe,
    entryDoneCheck_of_err _ hfe⟩

/-- An entry with a recorded probe error, for the C10 witness. -/
def erroredEntry : MonitorEntry :=
  { jobName := "job-c", state := "pending", startTime := 0, completionTime := 0,
    status := none, err := some "boom", notified := false }

/-- Witness for C10: after a later round whose probe reports still-running,
the errored entry is still rendered through the error branch. -/
theorem probe_error_sticky_witness :
    statusLabel (runEntry erroredEntry [(.ok none : ProbeResult)]).1
      = .failedError :=
  ((probe_error_sticky erroredEntry "boom" rfl).2 [(.ok none : ProbeResult)]).2.1

/-! ## The status probe (`watcher.CheckJobStatus`)

The HTTP exchange is modelled by its observable outcome: either the
request fails, or it yields a status code and a body read that itself may
fail; `json.Unmarshal` into `finishedJSON` is an abstract parse function
passed as a parameter.  Bytes are modelled as `List Nat`. -/

/-- The observable outcome of `http.Get` + `io.ReadAll`. -/
structure HttpResponse where
  statusCode : Nat
  body : Except String (List Nat)

/-- `finishedJSON`: the decoded `finished.json` payload. -/
structure FinishedJSON where
  timestamp : Int
  passed : Bool
  result : String

/-- `watcher.CheckJobStatus`: 404 means still running (`ok none`), 200 with
parseable `finished.json` yields a finished status with `Passed` and
`Timestamp` copied from the body, and anything else is an error. -/
def CheckJobStatus (parse : List Nat → Except String FinishedJSON)
    (resp : Except String HttpResponse) : Except String (Option JobStatus) :=
  match resp with
  | .error e => .error ("failed to fetch job status: " ++ e)
  | .ok r =>
      if r.statusCode = 404 then .ok none
      else if r.statusCode ≠ 200 then .error "unexpected status code"
      else
        match r.body with
        | .error _ => .error "failed to read response body"
        | .ok bytes =>
            match parse bytes with
            | .error _ => .error "failed to parse finished.json"
            | .ok fin =>
                .ok (some { finished := true, passed := fin.passed,
                            timestamp := fin.timestamp })

/-- C8: `CheckJobStatus` returns `ok none` exactly for a 404 response
(job still running); it returns a populated status — always finished, with
`Passed` and `Timestamp` copied from the parsed body — exactly for a 200
response whose body reads and parses; and every other outcome (request
failure, other status codes, unreadable body, invalid JSON) is an error. -/
theorem checkJobStatus_cases (parse : List Nat → Except String FinishedJSON)
    (resp : Except String HttpResponse) :
    (CheckJobStatus parse resp = .ok none ↔
      ∃ r, resp = .ok r ∧ r.statusCode = 404) ∧
    (∀ s, CheckJobStatus parse resp = .ok (some s) ↔
      ∃ r bytes fin, resp = .ok r ∧ r.statusCode = 200 ∧ r.body = .ok bytes ∧
        parse bytes = .ok fin ∧
        s = { finished := true, passed := fin.passed,
              timestamp := fin.timestamp }) ∧
    (∀ e, resp = .error e → ∃ m, CheckJobStatus parse resp = .error m) ∧
    (∀ r, resp = .ok r → r.statusCode ≠ 404 → r.statusCode ≠ 200 →
      ∃ m, CheckJobStatus parse resp = .error m) ∧
    (∀ r e, resp = .ok r → r.statusCode = 200 → r.body = .error e →
      ∃ m, CheckJobStatus parse resp = .error m) ∧
    (∀ r bytes e, resp = .ok r → r.statusCode = 200 → r.body = .ok bytes →
      parse bytes = .error e → ∃ m, CheckJobStatus parse resp = .error m) := by
  cases resp with
  | error e0 =>
    have hres : CheckJobStatus parse (.error e0)
        = .error ("failed to fetch job status: " ++ e0) := rfl
    refine ⟨?_, ?_, ?_, ?_, ?_, ?_⟩
    · rw [hres]
      simp
    · intro s
      rw [hres]
      simp
    · intro e1 _
      exact ⟨_, hres⟩
    · intro r hr
      exact absurd hr (by simp)
    · intro r e1 hr
      exact absurd hr (by simp)
    · intro r bytes e1 hr
      exact absurd hr (by simp)
  | ok r =>
    by_cases h404 : r.statusCode = 404
    · have hres : CheckJobStatus parse (.ok r) = .ok none := by
        simp [CheckJobStatus, h404]
      refine ⟨?_, ?_, ?_, ?_, ?_, ?_⟩
      · rw [hres]
        exact ⟨fun _ => ⟨r, rfl, h404⟩, fun _ => rfl⟩
      · intro s
        rw [hres]
        constructor
        · intro habs
          simp at habs
        · rintro ⟨r2, bytes, fin, hr2, h200, _⟩
          simp at hr2
          subst hr2
          omega
      · intro e1 habs
        exact absurd habs (by simp)
      · intro r2 hr2 hn404 _
        simp at hr2
        subst hr2
        exact absurd h404 hn404
      · intro r2 e1 hr2 h200 _
        simp at hr2
        subst hr2
        omega
      · intro r2 bytes e1 hr2 h200 _ _
        simp at hr2
        subst hr2
        omega
    · by_cases h200 : r.statusCode = 200
      · cases hb : r.body with
        | error be =>
          have hres : CheckJobStatus parse (.ok r)
              = .error "failed to read response body" := by
            simp [CheckJobStatus, h200, hb]
          refine ⟨?_, ?_, ?_, ?_, ?_, ?_⟩
          · rw [hres]
            constructor
            · intro habs
              simp at habs
            · rintro ⟨r2, hr2, h404b⟩
              simp at hr2
              subst hr2
              omega
          · intro s
            rw [hres]
            constructor
            · intro habs
              simp at habs
            · rintro ⟨r2, bytes, fin, hr2, _, hb2, _, _⟩
              simp at hr2
              subst hr2
              rw [hb] at hb2
              simp at hb2
          · intro e1 habs
            exact absurd habs (by simp)
          · intro r2 hr2 _ hn200
            simp at hr2
            subst hr2
            exact absurd h200 hn200
          · intro r2 e1 _ _ _
            exact ⟨_, hres⟩
          · intro r2 bytes e1 _ _ _ _
            exact ⟨_, hres⟩
        | ok bytes =>
          cases hp : parse bytes with
          | error pe =>
            have hres : CheckJobStatus parse (.ok r)
                = .error "failed to parse finished.json" := by
              simp [CheckJobStatus, h200, hb, hp]
            refine ⟨?_, ?_, ?_, ?_, ?_, ?_⟩
            · rw [hres]
              constructor
              · intro habs
                simp at habs
              · rintro ⟨r2, hr2, h404b⟩
                simp at hr2
                subst hr2
                omega
            · intro s
              rw [hres]
              constructor
              · intro habs
                simp at habs
              · rintro ⟨r2, bytes2, fin, hr2, _, hb2, hp2, _⟩
                simp at hr2
                subst hr2
                rw [hb] at hb2
                simp at hb2
                subst hb2
                rw [hp] at hp2
                simp at hp2
            · intro e1 habs
              exact absurd habs (by simp)
            · intro r2 hr2 _ hn200
              simp at hr2
              subst hr2
              exact absurd h200 hn200
            · intro r2 e1 _ _ _
              exact ⟨_, hres⟩
            · intro r2 bytes2 e1 _ _ _ _
              exact ⟨_, hres⟩
          | ok fin =>
            have hres : CheckJobStatus parse (.ok r)
                = .ok (some { finished := true, passed := fin.passed,
                              timestamp := fin.timestamp }) := by
              simp [CheckJobStatus, h200, hb, hp]
            refine ⟨?_, ?_, ?_, ?_, ?_, ?_⟩
            · rw [hres]
              constructor
              · intro habs
                simp at habs
              · rintro ⟨r2, hr2, h404b⟩
                simp at hr2
                subst hr2
                omega
            · intro s
              rw [hres]
              constructor
              · intro hs
                simp at hs
                exact ⟨r, bytes, fin, rfl, h200, hb, hp, hs.symm⟩
              · rintro ⟨r2, bytes2, fin2, hr2, _, hb2, hp2, hs⟩
                simp at hr2
                subst hr2
                rw [hb] at hb2
                simp at hb2
                subst hb2
                rw [hp] at hp2
                simp at hp2
                subst hp2
                rw [hs]
            · intro e1 habs
              exact absurd habs (by simp)
            · intro r2 hr2 _ hn200
              simp at hr2
              subst hr2
              exact absurd h200 hn200
            · intro r2 e1 hr2 _ hb2
              simp at hr2
              subst hr2
              rw [hb] at hb2
              simp at hb2
            · intro r2 bytes2 e1 hr2 _ hb2 hp2
              simp at hr2
              subst hr2
              rw [hb] at hb2
              simp at hb2
              subst hb2
              rw [hp] at hp2
              simp at hp2
      · have hres : CheckJobStatus parse (.ok r)
            = .error "unexpected status code" := by
          simp [CheckJobStatus, h404, h200]
        refine ⟨?_, ?_, ?_, ?_, ?_, ?_⟩
        · rw [hres]
          constructor
          · intro habs
            simp at habs
          · rintro ⟨r2, hr2, h404b⟩
            simp at hr2
            subst hr2
            exact absurd h404b h404
        · intro s
          rw [hres]
          constructor
          · intro habs
            simp at habs
          · rintro ⟨r2, bytes, fin, hr2, h200b, _, _, _⟩
            simp at hr2
            subst hr2
            exact absurd h200b h200
        · intro e1 habs
          exact absurd habs (by simp)
        · intro r2 _ _ _
          exact ⟨_, hres⟩
        · intro r2 e1 hr2 h200b _
          simp at hr2
          subst hr2
          exact absurd h200b h200
        · intro r2 bytes e1 hr2 h200b _ _
          simp at hr2
          subst hr2
          exact absurd h200b h200

/-- Witness for C8: a 404 response evaluates to `ok none` (still running). -/
theorem checkJobStatus_cases_witness :
    CheckJobStatus (fun _ => .ok ⟨123, true, "SUCCESS"⟩)
        (.ok ⟨404, .ok []⟩) = .ok none :=
  (checkJobStatus_cases _ _).1.mpr ⟨⟨404, .ok []⟩, rfl, rfl⟩
